import Mathlib

/-
Verification development for the awwparse command-line parsing library.

This file gives a shallow embedding of the token-resolution and dispatch
core of the library (module `awwparse`: the `Arguments` token cursor,
`Positional` specifications from `awwparse/positionals.py`, `Option`
matching and operand parsing, `Command` dispatch from
`awwparse/__init__.py`, and the accumulation actions from
`awwparse/actions.py`), and proves or refutes the frozen claims about it.

Modelling conventions:
  * Python strings are Lean `String`; byte/unicode distinctions are not
    modelled (the embedded positional kinds are `NativeString`, `Integer`,
    `Boolean` and `Choice`, which are the kinds the claims exercise).
  * Python exceptions become an `Err` error type threaded through
    `Except`-like results.  Because the cursor in the Python code is
    mutated in place, parsing functions return both the result and the
    cursor after the call, so that a state mutated before a raise is kept
    (as in CPython) even when an exception propagates.
  * Python `dict` namespaces become insertion-ordered association lists;
    Python `set` values are modelled as duplicate-free lists built by
    insert-if-absent, and order-independence claims are stated via
    `List.toFinset`.
  * The dispatch loops of `Command.run` are not structurally recursive in
    the source (the bundled-option residual loop and child delegation), so
    the embedding takes a fuel parameter; `Err.outOfFuel` marks
    exhaustion and never occurs in any theorem below.
  * `HelpOption.parse` prints help and terminates the process; the
    embedding returns the distinguished error `Err.helpExit` for it.
    Plain `Command` objects have no `stderr`, so `handle_error` re-raises;
    errors therefore propagate to the caller and are modelled as `Except`
    errors.
-/

/-- Values stored in a parse result namespace. -/
inductive Value where
  | vstr (s : String)
  | vint (n : Int)
  | vbool (b : Bool)
  | vlist (vs : List Value)

mutual

/-- Decidable equality for `Value` (nested recursion through `List`). -/
def Value.decEq : (a b : Value) → Decidable (a = b)
  | .vstr a, .vstr b =>
    if h : a = b then isTrue (by rw [h]) else isFalse (by simp [h])
  | .vint a, .vint b =>
    if h : a = b then isTrue (by rw [h]) else isFalse (by simp [h])
  | .vbool a, .vbool b =>
    if h : a = b then isTrue (by rw [h]) else isFalse (by simp [h])
  | .vlist as', .vlist bs' =>
    match Value.decEqList as' bs' with
    | isTrue h => isTrue (by rw [h])
    | isFalse h => isFalse (by simp [h])
  | .vstr _, .vint _ => isFalse (fun h => Value.noConfusion h)
  | .vstr _, .vbool _ => isFalse (fun h => Value.noConfusion h)
  | .vstr _, .vlist _ => isFalse (fun h => Value.noConfusion h)
  | .vint _, .vstr _ => isFalse (fun h => Value.noConfusion h)
  | .vint _, .vbool _ => isFalse (fun h => Value.noConfusion h)
  | .vint _, .vlist _ => isFalse (fun h => Value.noConfusion h)
  | .vbool _, .vstr _ => isFalse (fun h => Value.noConfusion h)
  | .vbool _, .vint _ => isFalse (fun h => Value.noConfusion h)
  | .vbool _, .vlist _ => isFalse (fun h => Value.noConfusion h)
  | .vlist _, .vstr _ => isFalse (fun h => Value.noConfusion h)
  | .vlist _, .vint _ => isFalse (fun h => Value.noConfusion h)
  | .vlist _, .vbool _ => isFalse (fun h => Value.noConfusion h)

/-- Pointwise decidable equality on lists of values. -/
def Value.decEqList : (a b : List Value) → Decidable (a = b)
  | [], [] => isTrue rfl
  | a :: as', b :: bs' =>
    match Value.decEq a b, Value.decEqList as' bs' with
    | isTrue h1, isTrue h2 => isTrue (by rw [h1, h2])
    | isFalse h1, _ => isFalse (fun h => by cases h; exact h1 rfl)
    | _, isFalse h2 => isFalse (fun h => by cases h; exact h2 rfl)
  | [], _ :: _ => isFalse (fun h => by cases h)
  | _ :: _, [] => isFalse (fun h => by cases h)

end

instance : DecidableEq Value := Value.decEq

/-- The exceptions of the library (`awwparse/exceptions.py`) plus the
Python built-in exceptions that the embedded code can raise, and the
fuel sentinel of the embedding. -/
inductive Err where
  | unexpectedArgument (s : String)
  | argumentMissing (s : String)
  | userTypeError (s : String)
  | commandMissing
  | positionalArgumentMissing (s : String)
  | positionalConflict
  | endOptionParsing
  | valueError (s : String)
  | indexError
  | attributeError
  | notImplementedError
  | helpExit
  | outOfFuel
deriving DecidableEq

/-- `CLIError` subclasses: exceptions that `Command.run` catches and turns
into user-facing errors.  `EndOptionParsing` and the Python built-ins are
not `CLIError`s. -/
def Err.isCLIError : Err → Bool
  | .unexpectedArgument _ => true
  | .argumentMissing _ => true
  | .userTypeError _ => true
  | .commandMissing => true
  | .positionalArgumentMissing _ => true
  | _ => false

/-- The token cursor (`Arguments` in `awwparse/__init__.py`).  `args` is
the not-yet-drawn part of the underlying iterator, `remaining` is the
rewind deque (`next` pops its left end, `rewind` appends at its right
end), and the consumption trace `trace = doneFrames ++ [frame]` is split
into the closed frames and the current frame, which is always present
(the constructor starts with one empty frame). -/
structure Arguments where
  args : List String
  remaining : List String
  doneFrames : List (List String)
  frame : List String
deriving DecidableEq

/-- `Arguments(arguments)` with no application name: trace `[[]]`. -/
def Arguments.fresh (tokens : List String) : Arguments :=
  ⟨tokens, [], [], []⟩

/-- `Arguments.next`: pop the rewind deque first, else draw from the
iterator; the consumed token is appended to the current frame.  Returns
`none` for `StopIteration` (cursor unchanged, nothing was appended). -/
def Arguments.next : Arguments → Option (String × Arguments)
  | ⟨args, r :: rs, d, f⟩ => some (r, ⟨args, rs, d, f ++ [r]⟩)
  | ⟨a :: as', [], d, f⟩ => some (a, ⟨as', [], d, f ++ [a]⟩)
  | ⟨[], [], _, _⟩ => none

/-- `Arguments.rewind`: pop the last token of the current frame and append
it at the right end of the rewind deque.  `none` models the `IndexError`
raised by `list.pop()` on an empty frame. -/
def Arguments.rewind (a : Arguments) : Option Arguments :=
  match a.frame.getLast? with
  | none => none
  | some t => some ⟨a.args, a.remaining ++ [t], a.doneFrames, a.frame.dropLast⟩

/-- The tokens the cursor will still yield, in order. -/
def Arguments.toYield (a : Arguments) : List String :=
  a.remaining ++ a.args

/-- `Arguments.__bool__` / `__nonzero__`: consume-then-rewind peek.
Returns the truth value and the cursor afterwards. -/
def Arguments.toBool (a : Arguments) : Bool × Arguments :=
  match a.next with
  | none => (false, a)
  | some (_, a1) =>
    match a1.rewind with
    | some a2 => (true, a2)
    | none => (true, a1)

/-- `arguments.trace.append([])`: open a new frame (done on delegation to
a child command). -/
def Arguments.pushFrame (a : Arguments) : Arguments :=
  ⟨a.args, a.remaining, a.doneFrames ++ [a.frame], []⟩

/-- `list(arguments)`: drain every token the cursor will still yield —
the pending rewound tokens, then the rest of the iterator — consuming
all of them (they all enter the trace, in order).  Stated in closed form
so that it computes by iota reduction; the theorem `drain_unfold` below
re-derives the one-token-at-a-time loop equation of the source. -/
def Arguments.drain (a : Arguments) : List String × Arguments :=
  (a.remaining ++ a.args,
    ⟨[], [], a.doneFrames, a.frame ++ (a.remaining ++ a.args)⟩)

/-- `awwparse.actions.store_last`. -/
def store_last {α : Type} (previous : Option α) (current : α) : α :=
  let _ := previous
  current

/-- `awwparse.actions.append_to_list` (a fresh list when there was no
previous value, then append). -/
def append_to_list {α : Type} (previous : Option (List α)) (current : α) :
    List α :=
  (previous.getD []) ++ [current]

/-- `awwparse.actions.add_to_set` (a fresh set when there was no previous
value, then insert); the Python set is modelled as a duplicate-free list
built by insert-if-absent. -/
def add_to_set {α : Type} [DecidableEq α] (previous : Option (List α))
    (current : α) : List α :=
  let s := previous.getD []
  if current ∈ s then s else s ++ [current]

/-- `awwparse.actions.add` (implicit zero for a missing previous value). -/
def add (previous : Option Int) (current : Int) : Int :=
  previous.getD 0 + current

/-- `awwparse.actions.sub` (implicit zero for a missing previous value). -/
def sub (previous : Option Int) (current : Int) : Int :=
  previous.getD 0 - current

/-- Resolving repeated option occurrences: fold an accumulation action
over the occurrence values exactly as `Option.parse` does, starting from
the absent namespace entry (`namespace.get(name)` is `None` at first). -/
def accumulate {α β : Type} (act : Option β → α → β) (xs : List α) :
    Option β :=
  xs.foldl (fun acc x => some (act acc x)) none

/-- Positional specifications (`awwparse/positionals.py`).  The embedded
kinds are `NativeString`, `Integer`, `Boolean` and `Choice`; each carries
the `metavar`, `optional` and `remaining` attributes of the Python
`Positional` base class.  `Choice` wraps an inner positional and a list
of allowed parsed values. -/
inductive Positional where
  | nativeString (metavar : Option String) (optional remaining : Bool)
  | integer (metavar : Option String) (optional remaining : Bool)
  | boolean (store : Bool) (metavar : Option String)
      (optional remaining : Bool)
  | choice (inner : Positional) (choices : List Value)
      (metavar : Option String) (optional remaining : Bool)
deriving DecidableEq

/-- The `metavar` attribute. -/
def Positional.metavar : Positional → Option String
  | .nativeString mv _ _ => mv
  | .integer mv _ _ => mv
  | .boolean _ mv _ _ => mv
  | .choice _ _ mv _ _ => mv

/-- The `optional` attribute. -/
def Positional.optional : Positional → Bool
  | .nativeString _ o _ => o
  | .integer _ o _ => o
  | .boolean _ _ o _ => o
  | .choice _ _ _ o _ => o

/-- The `remaining` attribute. -/
def Positional.remaining : Positional → Bool
  | .nativeString _ _ r => r
  | .integer _ _ r => r
  | .boolean _ _ _ r => r
  | .choice _ _ _ _ r => r

/-- `positional.optional = True` (the in-place mutation performed by
`parse_positional_signature` on the head of a nested group). -/
def Positional.setOptional : Positional → Positional
  | .nativeString mv _ r => .nativeString mv true r
  | .integer mv _ r => .integer mv true r
  | .boolean s mv _ r => .boolean s mv true r
  | .choice i ch mv _ r => .choice i ch mv true r

/-- `Positional.setdefault_metavar`. -/
def Positional.setdefaultMetavar (p : Positional) (mv : String) :
    Positional :=
  match p with
  | .nativeString none o r => .nativeString (some mv) o r
  | .integer none o r => .integer (some mv) o r
  | .boolean s none o r => .boolean s (some mv) o r
  | .choice i ch none o r => .choice i ch (some mv) o r
  | other => other

/-- An item of a raw positional signature: either a `Positional` object or
a nested Python list of items. -/
inductive SigItem where
  | pos (p : Positional)
  | group (items : List SigItem)

/-- `parse_positional_signature` (`awwparse/positionals.py`): flatten the
signature; for each nested (non-root) group, the group's first element
has its `optional` flag set in place before the group is flattened.
`none` models the Python exceptions on malformed signatures: an empty
group (`IndexError` on `positionals[0]`) or a group whose first element
is itself a list (`AttributeError` on assigning `.optional`). -/
def parseSigItems : List SigItem → Option (List Positional)
  | [] => some []
  | .pos p :: rest => (parseSigItems rest).map (p :: ·)
  | .group [] :: _ => none
  | .group (.group _ :: _) :: _ => none
  | .group (.pos p :: inner) :: rest => do
      let innerPs ← parseSigItems inner
      let tail ← parseSigItems rest
      pure ((p.setOptional :: innerPs) ++ tail)

/-- A positional that can never raise `EndOptionParsing`: its own
`optional` flag is off and, for `Choice`, the wrapped positional can
never raise it either (the wrapped positional's `EndOptionParsing`
propagates uncaught through `Choice.parse`). -/
def Positional.neverEndOption : Positional → Bool
  | .nativeString _ o _ => !o
  | .integer _ o _ => !o
  | .boolean _ _ _ _ => true
  | .choice inner _ _ o _ => !o && inner.neverEndOption

/-- No `remaining` `Choice` occurs inside: the `while arguments:` loop of
`Choice.parse` with `remaining` set can fail to terminate in Python when
the wrapped positional consumes no token, which the embedding models by
fuel. -/
def Positional.noFuelRisk : Positional → Bool
  | .choice inner _ _ _ r => !r && inner.noFuelRisk
  | _ => true

/-- The part of a canonical nested group after its head: empty, or one
further canonical group. -/
inductive CanonicalTail : List SigItem → Prop where
  | nil : CanonicalTail []
  | group (p : Positional) (inner : List SigItem) :
      p.optional = false → CanonicalTail inner →
      CanonicalTail [.group (.pos p :: inner)]

/-- Signatures in canonical singly-nested form with all `optional` flags
initially off: a sequence of non-optional specifications, optionally
ended by one nested group consisting of a single non-optional
specification followed, at most, by one further such group. -/
inductive Canonical : List SigItem → Prop where
  | nil : Canonical []
  | cons (p : Positional) (rest : List SigItem) :
      p.optional = false → Canonical rest → Canonical (.pos p :: rest)
  | group (p : Positional) (inner : List SigItem) :
      p.optional = false → CanonicalTail inner →
      Canonical [.group (.pos p :: inner)]

/-- The option name prefix characters (`Option.prefix_chars`). -/
def pfxChars : List Char := ['-', '+']

/-- Python `argument.startswith(short)`. -/
def pyStartswith (s pre : String) : Bool :=
  pre.toList.isPrefixOf s.toList

/-- Python `argument.lstrip(chars)`: remove every leading character of
`s` that occurs in `chars`. -/
def pyLstrip (s chars : String) : String :=
  String.mk (s.toList.dropWhile (· ∈ chars.toList))

/-- `Option.get_prefix` applied to the short form: the leading prefix
characters of the short. -/
def shortPfx (s : String) : String :=
  String.mk (s.toList.takeWhile (· ∈ pfxChars))

/-- Python `int(s)` restricted to an optional sign followed by decimal
digits (whitespace and underscore tolerance of CPython not modelled);
`none` is `ValueError`. -/
def digitVal? (ch : Char) : Option Nat :=
  if '0' ≤ ch ∧ ch ≤ '9' then some (ch.toNat - '0'.toNat) else none

/-- Digit-string value, `none` when empty or non-digit. -/
def digitsVal? (ds : List Char) : Option Nat :=
  if ds.isEmpty then none
  else
    ds.foldl
      (fun acc ch =>
        match acc, digitVal? ch with
        | some n, some d => some (10 * n + d)
        | _, _ => none)
      (some 0)

/-- Python `int(s)` (see `digitsVal?`). -/
def pyInt? (s : String) : Option Int :=
  match s.toList with
  | '-' :: ds => (digitsVal? ds).map (fun n => -(n : Int))
  | '+' :: ds => (digitsVal? ds).map (fun n => (n : Int))
  | ds => (digitsVal? ds).map (fun n => (n : Int))

/-- The accumulation action carried by an `Option`
(`awwparse/actions.py`; default `store_last`). -/
inductive ActionKind where
  | storeLast
  | appendToList
  | addToSet
  | add
  | sub
deriving DecidableEq

/-- The action functions of `awwparse/actions.py` instantiated at
namespace values.  Applying an arithmetic or container action to a
previous value of the wrong shape is a Python `TypeError` or
`AttributeError`, modelled as `Err.attributeError` (never reached in the
claims). -/
def ActionKind.apply : ActionKind → Option Value → Value → Except Err Value
  | .storeLast, _, cur => .ok cur
  | .appendToList, none, cur => .ok (.vlist [cur])
  | .appendToList, some (.vlist l), cur => .ok (.vlist (l ++ [cur]))
  | .appendToList, some _, _ => .error .attributeError
  | .addToSet, none, cur => .ok (.vlist [cur])
  | .addToSet, some (.vlist l), cur =>
      .ok (.vlist (if cur ∈ l then l else l ++ [cur]))
  | .addToSet, some _, _ => .error .attributeError
  | .add, none, .vint n => .ok (.vint (0 + n))
  | .add, some (.vint m), .vint n => .ok (.vint (m + n))
  | .add, _, _ => .error .attributeError
  | .sub, none, .vint n => .ok (.vint (0 - n))
  | .sub, some (.vint m), .vint n => .ok (.vint (m - n))
  | .sub, _, _ => .error .attributeError

/-- A parse-result namespace: a Python `dict` as an insertion-ordered
association list. -/
abbrev Namespace := List (String × Value)

/-- `namespace.get(name)`. -/
def nsGet (ns : Namespace) (k : String) : Option Value :=
  (ns.find? (fun kv => kv.1 = k)).map (·.2)

/-- `namespace[name] = v`: update in place, else append. -/
def nsSet (ns : Namespace) (k : String) (v : Value) : Namespace :=
  if ns.any (fun kv => kv.1 = k) then
    ns.map (fun kv => if kv.1 = k then (k, v) else kv)
  else ns ++ [(k, v)]

/-- An `Option` of `awwparse/__init__.py`: optional short form (two
characters, prefix plus letter) and long form, its positional chain, its
accumulation action, and whether it is the special `HelpOption`. -/
structure Opt where
  short : Option String
  long : Option String
  positionals : List Positional
  action : ActionKind
  isHelp : Bool
deriving DecidableEq

/-- `Option.matches` (`awwparse/__init__.py` lines 794-802): exact long
match first; otherwise a token starting with the short form matches, with
the residual being the short's prefix plus the token left-stripped of
every character of the short form (`str.lstrip` semantics), or empty when
nothing remains; otherwise no match, token unchanged. -/
def Opt.matches (o : Opt) (argument : String) : Bool × String :=
  if o.long = some argument then (true, "")
  else
    match o.short with
    | some s =>
      if pyStartswith argument s then
        let stripped := pyLstrip argument s
        let modified := if stripped = "" then "" else shortPfx s ++ stripped
        (true, modified)
      else (false, argument)
    | none => (false, argument)

/-- `Option.setdefault_metavars`. -/
def Opt.setdefaultMetavars (o : Opt) (mv : String) : Opt :=
  { o with positionals := o.positionals.map (·.setdefaultMetavar mv) }

/-- A `Command` of `awwparse/__init__.py`: ordered option registrations
(the Python `OrderedDict` maps option object to identifier), named child
commands, the positional list, and whether `main` is overridden by the
application.  The default `main` raises `CommandMissing` when children
exist and `NotImplementedError` otherwise; an overridden `main` is
modelled as the test suite's `make_command` main, returning its
arguments. -/
inductive Cmd where
  | mk (options : List (Opt × String)) (commands : List (String × Cmd))
      (positionals : List Positional) (mainOverridden : Bool)

/-- Registered options with identifiers, in registration order. -/
def Cmd.options : Cmd → List (Opt × String)
  | .mk o _ _ _ => o

/-- Named child commands. -/
def Cmd.commands : Cmd → List (String × Cmd)
  | .mk _ c _ _ => c

/-- The command's positional list. -/
def Cmd.positionals : Cmd → List Positional
  | .mk _ _ p _ => p

/-- Whether the application overrides `main`. -/
def Cmd.mainOverridden : Cmd → Bool
  | .mk _ _ _ m => m

/-- Replace the positional list. -/
def Cmd.withPositionals : Cmd → List Positional → Cmd
  | .mk o cs _ m, ps => .mk o cs ps m

/-- `name in self.commands` lookup; the Python dict keeps the last entry
for a duplicated key, hence the reversed search. -/
def Cmd.lookupCommand (c : Cmd) (arg : String) : Option Cmd :=
  ((c.commands.reverse).find? (fun nc => nc.1 = arg)).map (·.2)

/-- `Command.option_shorts` lookup. -/
def Cmd.shortLookup (c : Cmd) (arg : String) : Option (Opt × String) :=
  (c.options.reverse).find? (fun oi => oi.1.short = some arg)

/-- `Command.option_longs` lookup. -/
def Cmd.longLookup (c : Cmd) (arg : String) : Option (Opt × String) :=
  (c.options.reverse).find? (fun oi => oi.1.long = some arg)

/-- `Command.is_option`. -/
def Cmd.is_option (c : Cmd) (arg : String) : Bool :=
  (c.shortLookup arg).isSome || (c.longLookup arg).isSome

/-- What `Command.get_match` found: a child command or an option. -/
inductive Matched where
  | cmd (child : Cmd)
  | opt (o : Opt)

/-- The `(name, match, modified)` triple returned by
`Command.get_match`. -/
structure MatchRes where
  name : String
  matched : Matched
  modified : String

/-- The final loop of `Command.get_match`: try every registered option's
`matches`, in registration order, carrying the (unchanged on failure)
token along; raise `UnexpectedArgument` when none matches. -/
def getMatchLoop : List (Opt × String) → String → Except Err MatchRes
  | [], arg => .error (.unexpectedArgument arg)
  | (o, ident) :: rest, arg =>
    match o.matches arg with
    | (true, modified) => .ok ⟨ident, .opt o, modified⟩
    | (false, modified) => getMatchLoop rest modified

/-- `Command.get_match` (`awwparse/__init__.py` lines 551-567). -/
def Cmd.get_match (c : Cmd) (argument : String) : Except Err MatchRes :=
  match c.lookupCommand argument with
  | some child => .ok ⟨argument, .cmd child, ""⟩
  | none =>
    match c.longLookup argument with
    | some (o, ident) => .ok ⟨ident, .opt o, ""⟩
    | none =>
      match c.shortLookup argument with
      | some (o, ident) => .ok ⟨ident, .opt o, ""⟩
      | none => getMatchLoop c.options argument

/-- `Positional.get_next_argument`: draw a token; `StopIteration` becomes
`ArgumentMissing(metavar)` (nothing consumed), an option-looking token
becomes `ArgumentMissing(token)` with the token already consumed and not
rewound, exactly as in the source. -/
def getNextArgument (c : Cmd) (mv : Option String) (a : Arguments) :
    (Except Err String) × Arguments :=
  match a.next with
  | none => (.error (.argumentMissing (mv.getD "")), a)
  | some (t, a1) =>
    if c.is_option t then (.error (.argumentMissing t), a1)
    else (.ok t, a1)

/-- Python `list(map(convert, arguments))` for `Integer`: convert each
drained token in order, failing with `UserTypeError` at the first
non-integer. -/
def intConvertAll : List String → Except Err (List Value)
  | [] => .ok []
  | t :: ts =>
    match pyInt? t with
    | none => .error (.userTypeError (t ++ " is not an integer"))
    | some n => (intConvertAll ts).map (Value.vint n :: ·)

/-- The `while arguments: result.append(parse_single(...))` loop of
`Choice.parse` with `remaining` set, over an abstract `step`.  The fuel
bounds the iteration count; Python diverges when `step` consumes nothing,
which the embedding reports as `Err.outOfFuel`. -/
def parseSingleLoop (step : Arguments → (Except Err Value) × Arguments) :
    Nat → List Value → Arguments → (Except Err Value) × Arguments
  | 0, _, a => (.error .outOfFuel, a)
  | fuel + 1, acc, a =>
    match a.toBool with
    | (false, a1) => (.ok (.vlist acc), a1)
    | (true, a1) =>
      match step a1 with
      | (.ok v, a2) => parseSingleLoop step fuel (acc ++ [v]) a2
      | (.error e, a2) => (.error e, a2)

/-- `Positional.parse` for the embedded kinds, translated clause by
clause from `awwparse/positionals.py` (`NativeString.parse`,
`ConverterBase.parse` with `int`, `Boolean.parse`, `Choice.parse` with
`parse_single`).  The cursor after the call is returned even on error,
because Python mutates it in place before raising. -/
def Positional.parse (p : Positional) (c : Cmd) (a : Arguments) :
    (Except Err Value) × Arguments :=
  match p with
  | .nativeString mv opt rem =>
    if rem then
      let (ts, a1) := a.drain
      (.ok (.vlist (ts.map .vstr)), a1)
    else
      match getNextArgument c mv a with
      | (.ok t, a1) => (.ok (.vstr t), a1)
      | (.error (.argumentMissing s), a1) =>
        if opt then (.error .endOptionParsing, a1)
        else (.error (.argumentMissing s), a1)
      | (.error e, a1) => (.error e, a1)
  | .integer mv opt rem =>
    if rem then
      let (ts, a1) := a.drain
      match intConvertAll ts with
      | .ok vs => (.ok (.vlist vs), a1)
      | .error e => (.error e, a1)
    else
      match getNextArgument c mv a with
      | (.ok t, a1) =>
        (match pyInt? t with
         | some n => (.ok (.vint n), a1)
         | none => (.error (.userTypeError (t ++ " is not an integer")), a1))
      | (.error (.argumentMissing s), a1) =>
        if opt then (.error .endOptionParsing, a1)
        else (.error (.argumentMissing s), a1)
      | (.error e, a1) => (.error e, a1)
  | .boolean store _ _ _ => (.ok (.vbool store), a)
  | .choice inner choices _ opt rem =>
    if rem then
      parseSingleLoop
        (fun a2 =>
          match Positional.parse inner c a2 with
          | (.ok v, a3) =>
            if v ∈ choices then (.ok v, a3)
            else (.error (.userTypeError "not one of the choices"), a3)
          | (.error e, a3) => (.error e, a3))
        (a.toYield.length + 1) [] a
    else
      match Positional.parse inner c a with
      | (.ok v, a3) =>
        if v ∈ choices then (.ok v, a3)
        else (.error (.userTypeError "not one of the choices"), a3)
      | (.error (.argumentMissing s), a3) =>
        if opt then (.error .endOptionParsing, a3)
        else (.error (.argumentMissing s), a3)
      | (.error e, a3) => (.error e, a3)

/-- The per-occurrence chain walk of `Option.parse`: parse each
positional in order, stopping early (keeping the values parsed so far)
when one raises `EndOptionParsing`; every other error propagates. -/
def parseChain (c : Cmd) : List Positional → Arguments →
    (Except Err (List Value)) × Arguments
  | [], a => (.ok [], a)
  | p :: rest, a =>
    match p.parse c a with
    | (.ok v, a1) =>
      match parseChain c rest a1 with
      | (.ok vs, a2) => (.ok (v :: vs), a2)
      | (.error e, a2) => (.error e, a2)
    | (.error .endOptionParsing, a1) => (.ok [], a1)
    | (.error e, a1) => (.error e, a1)

/-- `Option.parse` (`awwparse/__init__.py` lines 804-813): walk the
chain, take the list for a multi-element chain or `result[0]` for a
single-element chain (`Err.indexError` when that list is empty), then
store through the accumulation action under `name`.  `HelpOption.parse`
instead prints help and terminates the process (`Err.helpExit`). -/
def Opt.parse (o : Opt) (c : Cmd) (ns : Namespace) (name : String)
    (a : Arguments) : (Except Err Namespace) × Arguments :=
  if o.isHelp then (.error .helpExit, a)
  else
    match parseChain c o.positionals a with
    | (.error e, a1) => (.error e, a1)
    | (.ok vs, a1) =>
      let resE : Except Err Value :=
        if o.positionals.length > 1 then .ok (.vlist vs)
        else
          match vs.head? with
          | some v => .ok v
          | none => .error .indexError
      match resE with
      | .error e => (.error e, a1)
      | .ok res =>
        match o.action.apply (nsGet ns name) res with
        | .error e => (.error e, a1)
        | .ok v => (.ok (nsSet ns name v), a1)

/-- `Positional.parse_as_positional`: parse and extend (for `remaining`)
or append (otherwise) the positional argument list. -/
def parseAsPositional (p : Positional) (c : Cmd) (args : List Value)
    (a : Arguments) : (Except Err (List Value)) × Arguments :=
  match p.parse c a with
  | (.error e, a1) => (.error e, a1)
  | (.ok v, a1) =>
    if p.remaining then
      match v with
      | .vlist vs => (.ok (args ++ vs), a1)
      | _ => (.error .attributeError, a1)
    else (.ok (args ++ [v]), a1)

/-- The outcome of a dispatch: the Python return value of `Command.run`
(`none` after delegation, the overridden main's value otherwise) together
with the list of `main` invocations that happened, for observability of
delegation. -/
structure RunRet where
  retval : Option (List Value × Namespace)
  calls : List (List Value × Namespace)
deriving DecidableEq

/-- `return self.main(*args, **kwargs)`: an overridden main returns its
arguments (as in the test suite's `make_command`); the default
`Command.main` raises `CommandMissing` when the command has children and
`NotImplementedError` otherwise (`handle_error` re-raises, a plain
command has no `stderr`). -/
def Cmd.callMain (c : Cmd) (args : List Value) (kwargs : Namespace) :
    Except Err RunRet :=
  if c.mainOverridden then .ok ⟨some (args, kwargs), [(args, kwargs)]⟩
  else if c.commands.isEmpty then .error .notImplementedError
  else .error .commandMissing

/-- The control position inside `Command.run`'s loops: `outer` is the
top of the `for argument in arguments:` loop, `inner` is the top of the
`while modified != previous_modified:` residual loop, carrying the
loop-local variables (`previous_modified`, the stale `match`, `name`,
`modified`). -/
inductive RunState where
  | outer
  | inner (prev : String) (matchStale : Matched) (name modified : String)

/-- The dispatch loops of `Command.run` (`awwparse/__init__.py` lines
569-621), with `passthrough_errors` semantics (plain commands have no
`stderr`, so `handle_error` re-raises in any case), as one fuel-indexed
step function over `RunState`.

In the `outer` state: on exhaustion, the next unsatisfied positional, if
non-optional, raises `PositionalArgumentMissing`, otherwise the result
is handed to `main`; an `UnexpectedArgument` from `get_match` falls back
to the next expected positional (rewinding the token first) or is
re-raised.

In the `inner` state the loop is faithful to the source: `get_match`
rebinds `name` and `modified`, but the variable `match` is never rebound
(the freshly matched option is bound to the dead variable `option`), so
`matchStale` stays the first match for the whole loop.  A matched child
command opens a trace frame, runs with the same cursor, and the parent
returns `None` (retval `none`), keeping only the record of `main`
invocations. -/
def Cmd.runCore : Nat → Cmd → RunState → List Positional → List Value →
    Namespace → Arguments → Except Err RunRet
  | 0, _, _, _, _, _, _ => .error .outOfFuel
  | fuel + 1, c, .outer, expected, args, kwargs, a =>
    match a.next with
    | none =>
      match expected with
      | [] => c.callMain args kwargs
      | p :: _ =>
        if p.optional then c.callMain args kwargs
        else .error (.positionalArgumentMissing (p.metavar.getD ""))
    | some (argument, a1) =>
      match c.get_match argument with
      | .error (.unexpectedArgument s) =>
        match expected with
        | [] => .error (.unexpectedArgument s)
        | p :: restExp =>
          match a1.rewind with
          | none => .error .indexError
          | some a2 =>
            match parseAsPositional p c args a2 with
            | (.error e, _) => .error e
            | (.ok args1, a3) =>
              Cmd.runCore fuel c .outer restExp args1 kwargs a3
      | .error e => .error e
      | .ok m =>
        Cmd.runCore fuel c (.inner argument m.matched m.name m.modified)
          expected args kwargs a1
  | fuel + 1, c, .inner prev matchStale name modified, expected, args,
      kwargs, a =>
    if modified = prev then
      Cmd.runCore fuel c .outer expected args kwargs a
    else
      match matchStale with
      | .cmd child =>
        (Cmd.runCore fuel child .outer child.positionals args kwargs
            a.pushFrame).map (fun r => ⟨none, r.calls⟩)
      | .opt o =>
        match o.parse c kwargs name a with
        | (.error e, _) => .error e
        | (.ok kwargs1, a2) =>
          if modified = "" then
            Cmd.runCore fuel c .outer expected args kwargs1 a2
          else
            match c.get_match modified with
            | .error e => .error e
            | .ok m2 =>
              Cmd.runCore fuel c
                (.inner modified matchStale m2.name m2.modified)
                expected args kwargs1 a2

/-- `Command.run(tokens)` from a fresh cursor. -/
def Cmd.run (c : Cmd) (fuel : Nat) (tokens : List String) :
    Except Err RunRet :=
  Cmd.runCore fuel c .outer c.positionals [] [] (Arguments.fresh tokens)

/-- `Command.add_positional` (`awwparse/__init__.py` lines 410-426): a
metavar-less positional is rejected with `ValueError` first; then, when
the current last positional takes all remaining arguments, the addition
is rejected with `PositionalConflict`; otherwise the positional is
appended. -/
def Cmd.add_positional (c : Cmd) (p : Positional) : Except Err Cmd :=
  if p.metavar = none then
    .error (.valueError "metavar not set")
  else
    match c.positionals.getLast? with
    | some lastP =>
      if lastP.remaining then .error .positionalConflict
      else .ok (c.withPositionals (c.positionals ++ [p]))
    | none => .ok (c.withPositionals (c.positionals ++ [p]))

/-- The `HelpOption` registered first on every command: `-h` / `--help`
with a `remaining` native-string chain whose metavar defaults to the
identifier. -/
def helpOption : Opt :=
  ⟨some "-h", some "--help",
    [.nativeString (some "__awwparse_help") false true], .storeLast, true⟩

/-- `Command(...)` construction: the help option is registered first,
then the given options (each copied with metavars defaulted to the
identifier, as `add_option` does), the child commands and the
positionals.  Registration conflict checks are not modelled; every
command built below is conflict-free. -/
def Cmd.new (opts : List (String × Opt)) (cmds : List (String × Cmd))
    (pos : List Positional) (mainOv : Bool) : Cmd :=
  .mk ((helpOption, "__awwparse_help") ::
        opts.map (fun io => (io.2.setdefaultMetavars io.1, io.1)))
      cmds pos mainOv

/-- The tail of `Option._parse_signature` (`awwparse/__init__.py` lines
705-712): flatten the raw chain with `parse_positional_signature`, then
reject a chain whose first positional is optional with `ValueError`
(an empty chain hits `IndexError` on `positionals[0]`). -/
def optionChainCheck (sig : List SigItem) : Except Err (List Positional) :=
  match parseSigItems sig with
  | none => .error .attributeError
  | some [] => .error .indexError
  | some (p :: rest) =>
    if p.optional then
      .error (.valueError "first positional must not be optional")
    else .ok (p :: rest)

/-- A parent command with exactly one child and nothing else (only the
implicit help option), default `main`. -/
def parentOf (name : String) (child : Cmd) : Cmd :=
  Cmd.new [] [(name, child)] [] false

/-- A one-mandatory-native-string option with short `-a` (claims C1, C2). -/
def optA : Opt :=
  ⟨some "-a", none, [.nativeString (some "a") false false], .storeLast,
    false⟩

/-- A boolean option with short `-b`: consumes no operand (claim C2). -/
def optBoolB : Opt :=
  ⟨some "-b", none, [.boolean true (some "b") false false], .storeLast,
    false⟩

/-- The command for the bundling claim C2: options `a` then `b`,
overridden main. -/
def cmdBundle : Cmd :=
  Cmd.new [("a", optA), ("b", optBoolB)] [] [] true

/-- An option `-c` whose chain is one mandatory then one optional
native-string positional (claim C4). -/
def optC4 : Opt :=
  ⟨some "-c", none,
    [.nativeString (some "c") false false,
     .nativeString (some "c") true false], .storeLast, false⟩

/-- The command for claim C4. -/
def cmdC4 : Cmd :=
  Cmd.new [("c", optC4)] [] [] true

/-- An integer option `-a` with the replace (`store_last`) policy
(claim C5). -/
def optIntReplace : Opt :=
  ⟨some "-a", none, [.integer (some "a") false false], .storeLast, false⟩

/-- An integer option `-a` with the append policy (claim C5). -/
def optIntAppend : Opt :=
  ⟨some "-a", none, [.integer (some "a") false false], .appendToList,
    false⟩

/-- The replace-policy command for claim C5. -/
def cmdReplace : Cmd :=
  Cmd.new [("a", optIntReplace)] [] [] true

/-- The append-policy command for claim C5. -/
def cmdAppend : Cmd :=
  Cmd.new [("a", optIntAppend)] [] [] true

/-- A variadic native-string positional (claim C7). -/
def remPos : Positional :=
  .nativeString (some "xs") false true

/-- The command whose sole positional is variadic (claim C7). -/
def cmdRem : Cmd :=
  Cmd.new [] [] [remPos] true

/-- A child command with overridden main and nothing registered
(claim C8). -/
def childEx : Cmd :=
  Cmd.new [] [] [] true

/-- The parent of `childEx` under the name `sub` (claim C8). -/
def parentEx : Cmd :=
  parentOf "sub" childEx

/-- A non-optional `Choice` wrapping an optional native string: accepted
as a chain head by construction, yet its parse can raise
`EndOptionParsing` (claim C10). -/
def choiceBad : Positional :=
  .choice (.nativeString (some "v") true false) [] (some "v") false false

/-- The option whose single-element chain is `choiceBad` (claim C10). -/
def optBad : Opt :=
  ⟨some "-z", none, [choiceBad], .storeLast, false⟩

/-- A single-element chain option over an arbitrary positional, with the
default action, as produced by `Option` construction (claim C10). -/
def mkSingleOpt (p : Positional) : Opt :=
  ⟨some "-z", none, [p], .storeLast, false⟩

/-- A command with nothing registered, used as parse context. -/
def cmdPlain : Cmd :=
  Cmd.new [] [] [] true

/-- The canonical singly-nested signature `[a, [b, [c]]]` (claim C6). -/
def sigCanonical : List SigItem :=
  [.pos (.nativeString (some "a") false false),
   .group [.pos (.nativeString (some "b") false false),
           .group [.pos (.nativeString (some "c") false false)]]]

/-- The chain produced from `sigCanonical`: the group heads are marked
optional (claim C6). -/
def psCanonical : List Positional :=
  [.nativeString (some "a") false false,
   .nativeString (some "b") true false,
   .nativeString (some "c") true false]

/-- The head of `dropWhile p` does not satisfy `p`. -/
theorem head_dropWhile_not {α : Type} (p : α → Bool) :
    ∀ (l : List α) (h : α), (l.dropWhile p).head? = some h → p h = false := by
  intro l
  induction l with
  | nil => intro h hh; simp [List.dropWhile] at hh
  | cons x xs ih =>
    intro h hh
    simp only [List.dropWhile_cons] at hh
    split at hh
    · exact ih h hh
    · simp only [List.head?_cons, Option.some.injEq] at hh
      subst hh
      simp_all

/-- `String.mk l` is the empty string exactly when `l` is empty. -/
theorem stringMk_eq_empty_iff (l : List Char) : (String.mk l = "") ↔ l = [] := by
  constructor
  · intro h
    have := congrArg String.data h
    simpa using this
  · intro h
    subst h
    rfl

/-- C1.  The claim's residual rule fails on repeated short characters:
`Option.matches` uses `str.lstrip`, which strips every leading character
of the short form, not one occurrence.  For the option with short `-a`,
the token `-aab` matches with residual `-b`, whereas the claim's rule —
the prefix `-` plus what remains of the token after stripping the short
form `-a` once — gives `-ab`. -/
theorem claim1_counterexample :
    optA.matches "-aab" = (true, "-b") ∧
    shortPfx "-a" ++ String.mk (("-aab" : String).toList.drop 2) = "-ab" ∧
    ("-b" : String) ≠ "-ab" :=
  ⟨rfl, rfl, by decide⟩

/-- C1 (amended).  For every option with a short form: a token that does
not equal the long form but starts with the short form matches, and the
residual is empty when the whole token consists of characters of the
short form, and otherwise is the short's prefix plus the suffix of the
token that remains after removing every leading character occurring in
the short form (`str.lstrip` semantics); a token that neither equals the
long form nor starts with the short form is returned unchanged with
no-match. -/
theorem claim1_amended (o : Opt) (s arg : String) :
    (o.long ≠ some arg → o.short = some s → pyStartswith arg s = true →
      ∃ dropped rest : List Char,
        arg.toList = dropped ++ rest ∧
        (∀ ch ∈ dropped, ch ∈ s.toList) ∧
        (∀ h, rest.head? = some h → h ∉ s.toList) ∧
        o.matches arg =
          (true, if rest.isEmpty then "" else shortPfx s ++ String.mk rest)) ∧
    (o.long ≠ some arg →
      (∀ s', o.short = some s' → pyStartswith arg s' = false) →
      o.matches arg = (false, arg)) := by
  constructor
  · intro hl hs hst
    refine ⟨arg.toList.takeWhile (· ∈ s.toList),
      arg.toList.dropWhile (· ∈ s.toList), ?_, ?_, ?_, ?_⟩
    · exact (List.takeWhile_append_dropWhile _ _).symm
    · intro ch hch
      simpa using List.mem_takeWhile_imp hch
    · intro h hh
      simpa using head_dropWhile_not _ _ _ hh
    · by_cases hrest : arg.toList.dropWhile (· ∈ s.toList) = []
      · simp [Opt.matches, hs, hst, if_neg hl, pyLstrip, hrest,
          stringMk_eq_empty_iff]
      · simp [Opt.matches, hs, hst, if_neg hl, pyLstrip, hrest,
          stringMk_eq_empty_iff]
  · intro hl hns
    match ho : o.short with
    | none => simp [Opt.matches, if_neg hl, ho]
    | some s' => simp [Opt.matches, if_neg hl, ho, hns s' ho]

/-- C1 witness: the amended statement instantiated at the option with
short `-a`, the matching token `-abc` and the non-matching token `zzz`. -/
theorem claim1_witness :
    (∃ dropped rest : List Char,
        ("-abc" : String).toList = dropped ++ rest ∧
        (∀ ch ∈ dropped, ch ∈ ("-a" : String).toList) ∧
        (∀ h, rest.head? = some h → h ∉ ("-a" : String).toList) ∧
        optA.matches "-abc" =
          (true, if rest.isEmpty then "" else shortPfx "-a" ++ String.mk rest)) ∧
    optA.matches "zzz" = (false, "zzz") :=
  ⟨(claim1_amended optA "-a" "-abc").1 (by decide) rfl (by decide),
   (claim1_amended optA "-a" "zzz").2 (by decide)
     (fun s' hs' => by
        rw [show optA.short = some "-a" from rfl] at hs'
        injection hs' with h
        subst h
        decide)⟩

/-- C3.  Counterexample to the universally quantified claim: starting
from a fresh cursor over `x, y` and using only the cursor operations —
two consumes followed by two rewinds — one reaches a state with two
pending rewound tokens.  From that state, `next(); rewind(); next()`
yields `y` from the first consume but `x` from the second: the same
token is not observed twice, and the consume-rewind pair did not restore
the prior state. -/
theorem claim3_counterexample :
    (do
      let s0 := Arguments.fresh ["x", "y"]
      let (t1, s1) ← s0.next
      let (t2, s2) ← s1.next
      let s3 ← s2.rewind
      let s4 ← s3.rewind
      let (u1, s5) ← s4.next
      let s6 ← s5.rewind
      let (u2, _) ← s6.next
      pure (t1, t2, u1, u2)) = some ("x", "y", "y", "x") ∧
    ("y" : String) ≠ "x" :=
  ⟨rfl, by decide⟩

/-- C3 (amended).  On every cursor state with at most one pending
rewound token, a consume followed by a rewind restores the observable
state — the trace frames and the sequence of tokens still to be yielded
— and consuming again yields the same token, leaving exactly one trace
entry for it in the current frame. -/
theorem claim3_amended (a : Arguments) (t : String) (a1 : Arguments)
    (hlen : a.remaining.length ≤ 1) (hnext : a.next = some (t, a1)) :
    ∃ a2, a1.rewind = some a2 ∧
      a2.toYield = a.toYield ∧ a2.doneFrames = a.doneFrames ∧
      a2.frame = a.frame ∧
      ∃ a3, a2.next = some (t, a3) ∧ a3.frame = a.frame ++ [t] := by
  rcases a with ⟨args, rem, d, f⟩
  cases rem with
  | nil =>
    cases args with
    | nil => simp [Arguments.next] at hnext
    | cons x xs =>
      simp only [Arguments.next, Option.some.injEq, Prod.mk.injEq] at hnext
      obtain ⟨rfl, rfl⟩ := hnext
      refine ⟨⟨xs, [x], d, f⟩, ?_, by simp [Arguments.toYield], rfl, rfl,
        ⟨xs, [], d, f ++ [x]⟩, by simp [Arguments.next], rfl⟩
      simp [Arguments.rewind, List.getLast?_concat, List.dropLast_concat]
  | cons r rs =>
    cases rs with
    | nil =>
      simp only [Arguments.next, Option.some.injEq, Prod.mk.injEq] at hnext
      obtain ⟨rfl, rfl⟩ := hnext
      refine ⟨⟨args, [r], d, f⟩, ?_, by simp [Arguments.toYield], rfl, rfl,
        ⟨args, [], d, f ++ [r]⟩, by simp [Arguments.next], rfl⟩
      simp [Arguments.rewind, List.getLast?_concat, List.dropLast_concat]
    | cons r2 rs2 => simp at hlen

/-- C3 witness: the amended statement at a fresh one-token cursor. -/
theorem claim3_witness :
    ∃ a2, (Arguments.mk [] [] [] ["x"]).rewind = some a2 ∧
      a2.toYield = (Arguments.fresh ["x"]).toYield ∧
      a2.doneFrames = (Arguments.fresh ["x"]).doneFrames ∧
      a2.frame = (Arguments.fresh ["x"]).frame ∧
      ∃ a3, a2.next = some ("x", a3) ∧
        a3.frame = (Arguments.fresh ["x"]).frame ++ ["x"] :=
  claim3_amended (Arguments.fresh ["x"]) "x" (Arguments.mk [] [] [] ["x"])
    (by decide) rfl

/-- C9.  Counterexample: on the legally reachable state with two pending
rewound tokens (two consumes, two rewinds), the boolean peek changes the
order of the tokens still to be yielded from `y, x` to `x, y`, so the
observable state is not left unchanged. -/
theorem claim9_counterexample :
    (do
      let s0 := Arguments.fresh ["x", "y"]
      let (_, s1) ← s0.next
      let (_, s2) ← s1.next
      let s3 ← s2.rewind
      let s4 ← s3.rewind
      pure ((s4.toBool.2).toYield, s4.toYield)) =
      some (["x", "y"], ["y", "x"]) ∧
    (["x", "y"] : List String) ≠ ["y", "x"] :=
  ⟨rfl, by decide⟩

/-- C9 (amended).  The boolean peek returns true exactly when at least
one token remains (on every state); and on every state with at most one
pending rewound token it leaves the observable state — the trace frames
and the sequence of tokens still to be yielded — unchanged. -/
theorem claim9_amended (a : Arguments) :
    ((a.toBool.1 = true) ↔ a.toYield ≠ []) ∧
    (a.remaining.length ≤ 1 →
      a.toBool.2.toYield = a.toYield ∧
      a.toBool.2.doneFrames = a.doneFrames ∧
      a.toBool.2.frame = a.frame) := by
  rcases a with ⟨args, rem, d, f⟩
  cases rem with
  | nil =>
    cases args with
    | nil => simp [Arguments.toBool, Arguments.next, Arguments.toYield]
    | cons x xs =>
      constructor
      · simp [Arguments.toBool, Arguments.next, Arguments.rewind,
          List.getLast?_concat, Arguments.toYield]
      · intro _
        simp [Arguments.toBool, Arguments.next, Arguments.rewind,
          List.getLast?_concat, List.dropLast_concat, Arguments.toYield]
  | cons r rs =>
    constructor
    · simp [Arguments.toBool, Arguments.next, Arguments.rewind,
        List.getLast?_concat, Arguments.toYield]
    · intro hlen
      cases rs with
      | nil =>
        simp [Arguments.toBool, Arguments.next, Arguments.rewind,
          List.getLast?_concat, List.dropLast_concat, Arguments.toYield]
      | cons r2 rs2 => simp at hlen

/-- C9 witness: the amended statement at a fresh one-token cursor, with
the at-most-one-pending hypothesis discharged. -/
theorem claim9_witness :
    ((Arguments.fresh ["x"]).toBool.1 = true) ∧
    (Arguments.fresh ["x"]).toBool.2.toYield =
      (Arguments.fresh ["x"]).toYield ∧
    (Arguments.fresh ["x"]).toBool.2.doneFrames =
      (Arguments.fresh ["x"]).doneFrames ∧
    (Arguments.fresh ["x"]).toBool.2.frame = (Arguments.fresh ["x"]).frame :=
  ⟨((claim9_amended (Arguments.fresh ["x"])).1).mpr (by decide),
   (claim9_amended (Arguments.fresh ["x"])).2 (by decide)⟩

/-- C2 (code bug).  In the residual loop of `Command.run`, the result of
the inner `get_match` call is bound as `name, option, modified`, leaving
the dead variable `option` and reusing the stale `match` for parsing, so
the second and later options resolved from one bundled token have the
FIRST matched option's operand chain parsed on their behalf.  On the
command with options `a` (one mandatory string operand) and `b` (boolean,
no operand), the bundled input `-ab x` therefore fails with
`ArgumentMissing` — after `a` consumes `x`, the match for `b` parses
`a`'s chain again on an exhausted cursor — although `b`'s own chain
parses fine there, and with a further token `y` the run binds `b` to the
token `y` consumed by `a`'s chain instead of `b`'s boolean value. -/
theorem claim2_code_bug :
    cmdBundle.run 10 ["-ab", "x"] = .error (.argumentMissing "a") ∧
    (optBoolB.parse cmdBundle [] "b" (Arguments.fresh [])).1 =
      .ok [("b", .vbool true)] ∧
    cmdBundle.run 10 ["-ab", "x", "y"] =
      .ok ⟨some ([], [("a", .vstr "x"), ("b", .vstr "y")]),
           [([], [("a", .vstr "x"), ("b", .vstr "y")])]⟩ :=
  ⟨rfl, rfl, rfl⟩

/-- C4.  An option whose operand chain is one mandatory positional
followed by one optional positional: `-c foo` with nothing further
yields the one-element list `[foo]`, `-c foo bar` yields `[foo, bar]`,
and in general, whenever the optional tail signals end-of-operands
(`EndOptionParsing`, raised on exhausted input or an option-looking next
token), the chain stops early without error and `Option.parse` stores
the values already parsed. -/
theorem claim4_mandatory_optional :
    cmdC4.run 10 ["-c", "foo"] =
      .ok ⟨some ([], [("c", .vlist [.vstr "foo"])]),
           [([], [("c", .vlist [.vstr "foo"])])]⟩ ∧
    cmdC4.run 10 ["-c", "foo", "bar"] =
      .ok ⟨some ([], [("c", .vlist [.vstr "foo", .vstr "bar"])]),
           [([], [("c", .vlist [.vstr "foo", .vstr "bar"])])]⟩ ∧
    (∀ (p q : Positional) (c : Cmd) (ns : Namespace) (name : String)
        (a a1 a2 : Arguments) (v : Value),
      q.optional = true →
      p.parse c a = (.ok v, a1) →
      q.parse c a1 = (.error .endOptionParsing, a2) →
      parseChain c [p, q] a = (.ok [v], a2) ∧
      Opt.parse ⟨some "-c", none, [p, q], .storeLast, false⟩ c ns name a =
        (.ok (nsSet ns name (.vlist [v])), a2)) := by
  refine ⟨rfl, rfl, ?_⟩
  intro p q c ns name a a1 a2 v hopt hp hq
  have hchain : parseChain c [p, q] a = (.ok [v], a2) := by
    simp [parseChain, hp, hq]
  refine ⟨hchain, ?_⟩
  simp [Opt.parse, hchain, ActionKind.apply]

/-- C4 witness: the general early-stop conjunct instantiated at the
mandatory/optional native-string chain of `-c` on the one-token input
`foo` (the optional tail stops on exhausted input). -/
theorem claim4_witness :
    parseChain cmdC4
      [.nativeString (some "c") false false,
       .nativeString (some "c") true false]
      (Arguments.fresh ["foo"]) =
      (.ok [.vstr "foo"], Arguments.mk [] [] [] ["foo"]) ∧
    Opt.parse
      ⟨some "-c", none,
        [.nativeString (some "c") false false,
         .nativeString (some "c") true false], .storeLast, false⟩
      cmdC4 [] "c" (Arguments.fresh ["foo"]) =
      (.ok [("c", .vlist [.vstr "foo"])], Arguments.mk [] [] [] ["foo"]) :=
  claim4_mandatory_optional.2.2
    (.nativeString (some "c") false false)
    (.nativeString (some "c") true false)
    cmdC4 [] "c" (Arguments.fresh ["foo"]) (Arguments.mk [] [] [] ["foo"])
    (Arguments.mk [] [] [] ["foo"]) (.vstr "foo") rfl rfl rfl

/-- The append action folded from `some l` appends in order. -/
theorem accumulate_append_go (xs : List Int) :
    ∀ (l : List Int),
      xs.foldl (fun acc x => some (append_to_list acc x)) (some l) =
        some (l ++ xs) := by
  induction xs with
  | nil => intro l; simp
  | cons x xs ih =>
    intro l
    simp only [List.foldl_cons]
    rw [show append_to_list (some l) x = l ++ [x] from rfl, ih]
    simp

/-- The set action folded from `some l` collects exactly the elements. -/
theorem accumulate_addset_go_toFinset (xs : List Int) :
    ∀ (l : List Int),
      ((xs.foldl (fun acc x => some (add_to_set acc x)) (some l)).getD
        []).toFinset = l.toFinset ∪ xs.toFinset := by
  induction xs with
  | nil => intro l; simp
  | cons x xs ih =>
    intro l
    simp only [List.foldl_cons]
    rw [show add_to_set (some l) x = (if x ∈ l then l else l ++ [x]) from rfl]
    by_cases hx : x ∈ l
    · rw [if_pos hx, ih]
      ext a
      simp only [Finset.mem_union, List.mem_toFinset, List.toFinset_cons,
        Finset.mem_insert]
      constructor
      · rintro (h | h)
        · exact Or.inl h
        · exact Or.inr (Or.inr h)
      · rintro (h | h | h)
        · exact Or.inl h
        · exact Or.inl (h ▸ hx)
        · exact Or.inr h
    · rw [if_neg hx, ih]
      ext a
      simp only [Finset.mem_union, List.mem_toFinset, List.mem_append,
        List.toFinset_cons, Finset.mem_insert, List.mem_singleton]
      tauto

/-- The set action folded from a duplicate-free `some l` stays
duplicate-free. -/
theorem accumulate_addset_go_nodup (xs : List Int) :
    ∀ (l : List Int), l.Nodup →
      ((xs.foldl (fun acc x => some (add_to_set acc x)) (some l)).getD
        []).Nodup := by
  induction xs with
  | nil => intro l hl; simpa using hl
  | cons x xs ih =>
    intro l hl
    simp only [List.foldl_cons]
    rw [show add_to_set (some l) x = (if x ∈ l then l else l ++ [x]) from rfl]
    by_cases hx : x ∈ l
    · rw [if_pos hx]; exact ih l hl
    · rw [if_neg hx]
      exact ih (l ++ [x]) (by simp [List.nodup_append, hl, hx])

/-- The arithmetic add action folded from `some n` is a left fold of
addition. -/
theorem accumulate_add_go (xs : List Int) :
    ∀ (n : Int),
      xs.foldl (fun acc x => some (add acc x)) (some n) =
        some (xs.foldl (· + ·) n) := by
  induction xs with
  | nil => intro n; simp
  | cons x xs ih =>
    intro n
    simp only [List.foldl_cons]
    rw [show add (some n) x = n + x from rfl, ih]

/-- The arithmetic sub action folded from `some n` is a left fold of
subtraction. -/
theorem accumulate_sub_go (xs : List Int) :
    ∀ (n : Int),
      xs.foldl (fun acc x => some (sub acc x)) (some n) =
        some (xs.foldl (· - ·) n) := by
  induction xs with
  | nil => intro n; simp
  | cons x xs ih =>
    intro n
    simp only [List.foldl_cons]
    rw [show sub (some n) x = n - x from rfl, ih]

/-- C5.  Resolving `-a 1 -a 2` with the replace (`store_last`) policy
stores `2` under the option's identifier; with the append policy it
stores `[1, 2]`.  In general, over any occurrence list: append preserves
occurrence order exactly; the set action collects the occurrence values
into a duplicate-free collection whose element set is exactly the set of
occurrence values (hence independent of occurrence order); and the
add/sub actions equal left folds of `+` and `-` starting from the
implicit zero. -/
theorem claim5_accumulation :
    cmdReplace.run 10 ["-a", "1", "-a", "2"] =
      .ok ⟨some ([], [("a", .vint 2)]), [([], [("a", .vint 2)])]⟩ ∧
    cmdAppend.run 10 ["-a", "1", "-a", "2"] =
      .ok ⟨some ([], [("a", .vlist [.vint 1, .vint 2])]),
           [([], [("a", .vlist [.vint 1, .vint 2])])]⟩ ∧
    (∀ (xs : List Int),
      accumulate append_to_list xs = if xs.isEmpty then none else some xs) ∧
    (∀ (xs : List Int),
      ((accumulate add_to_set xs).getD []).toFinset = xs.toFinset) ∧
    (∀ (xs : List Int), ((accumulate add_to_set xs).getD []).Nodup) ∧
    (∀ (xs : List Int), (accumulate add xs).getD 0 = xs.foldl (· + ·) 0) ∧
    (∀ (xs : List Int), (accumulate sub xs).getD 0 = xs.foldl (· - ·) 0) := by
  refine ⟨rfl, rfl, ?_, ?_, ?_, ?_, ?_⟩
  · intro xs
    cases xs with
    | nil => rfl
    | cons x xs =>
      simp only [accumulate, List.foldl_cons, List.isEmpty_cons]
      rw [show append_to_list (none : Option (List Int)) x = [x] from rfl]
      rw [accumulate_append_go]
      simp
  · intro xs
    cases xs with
    | nil => rfl
    | cons x xs =>
      simp only [accumulate, List.foldl_cons]
      rw [show add_to_set (none : Option (List Int)) x = [x] from rfl]
      rw [accumulate_addset_go_toFinset]
      ext a
      simp only [Finset.mem_union, List.mem_toFinset, List.toFinset_cons,
        Finset.mem_insert, List.mem_singleton]
      tauto
  · intro xs
    cases xs with
    | nil => simp [accumulate]
    | cons x xs =>
      simp only [accumulate, List.foldl_cons]
      rw [show add_to_set (none : Option (List Int)) x = [x] from rfl]
      exact accumulate_addset_go_nodup xs [x] (by simp)
  · intro xs
    cases xs with
    | nil => rfl
    | cons x xs =>
      simp only [accumulate, List.foldl_cons]
      rw [show add (none : Option Int) x = 0 + x from rfl]
      rw [accumulate_add_go]
      simp
  · intro xs
    cases xs with
    | nil => rfl
    | cons x xs =>
      simp only [accumulate, List.foldl_cons]
      rw [show sub (none : Option Int) x = 0 - x from rfl]
      rw [accumulate_sub_go]
      simp

/-- The closed form of `drain` satisfies the one-token-at-a-time loop
equation of `list(arguments)`: drain is empty on an exhausted cursor and
otherwise consumes the next token and drains the rest. -/
theorem drain_unfold (a : Arguments) :
    a.drain =
      match a.next with
      | none => ([], a)
      | some (t, a1) => (t :: a1.drain.1, a1.drain.2) := by
  rcases a with ⟨args, rem, d, f⟩
  cases rem with
  | nil =>
    cases args with
    | nil => simp [Arguments.drain, Arguments.next]
    | cons x xs => simp [Arguments.drain, Arguments.next]
  | cons r rs => simp [Arguments.drain, Arguments.next]

/-- Setting the optional flag makes `optional` report true. -/
theorem setOptional_optional (p : Positional) :
    p.setOptional.optional = true := by
  cases p <;> rfl

/-- Setting the optional flag leaves `remaining` unchanged. -/
theorem setOptional_remaining (p : Positional) :
    p.setOptional.remaining = p.remaining := by
  cases p <;> rfl

/-- Every positional flattened from a canonical group tail is optional. -/
theorem groupTail_all_opt (inner : List SigItem)
    (h : CanonicalTail inner) :
    ∃ ps, parseSigItems inner = some ps ∧ ∀ p ∈ ps, p.optional = true := by
  induction h with
  | nil => exact ⟨[], by simp [parseSigItems], by simp⟩
  | group p inner2 hp ht ih =>
    obtain ⟨ps2, hps2, hall⟩ := ih
    refine ⟨p.setOptional :: ps2, ?_, ?_⟩
    · simp [parseSigItems, hps2]
    · intro q hq
      rcases List.mem_cons.mp hq with hq | hq
      · rw [hq]; exact setOptional_optional p
      · exact hall q hq

/-- A canonical signature flattens to a block of non-optional
positionals followed by a block of optional ones. -/
theorem canonical_items_decomp (items : List SigItem)
    (h : Canonical items) :
    ∃ pre suf, parseSigItems items = some (pre ++ suf) ∧
      (∀ p ∈ pre, p.optional = false) ∧ (∀ p ∈ suf, p.optional = true) := by
  induction h with
  | nil => exact ⟨[], [], by simp [parseSigItems], by simp, by simp⟩
  | cons p rest hp hrest ih =>
    obtain ⟨pre, suf, hps, hpre, hsuf⟩ := ih
    refine ⟨p :: pre, suf, ?_, ?_, hsuf⟩
    · simp [parseSigItems, hps]
    · intro q hq
      rcases List.mem_cons.mp hq with hq | hq
      · rw [hq]; exact hp
      · exact hpre q hq
  | group p inner hp ht =>
    obtain ⟨ps2, hps2, hall⟩ := groupTail_all_opt inner ht
    refine ⟨[], p.setOptional :: ps2, ?_, by simp, ?_⟩
    · simp [parseSigItems, hps2]
    · intro q hq
      rcases List.mem_cons.mp hq with hq | hq
      · rw [hq]; exact setOptional_optional p
      · exact hall q hq

/-- C6.  Counterexample: the chain signature `[a, [b, c]]` — accepted by
chain construction, with every `optional` flag initially off — flattens
so that only the group head `b` is marked optional while `c`, which
comes after it, stays mandatory.  The second specification is optional
after construction but the third is not, refuting the suffix property.
(The repository's own test suite relies on this shape:
`Option("o", String(), [String(), String()])` must reject `-o a b` with
the third operand missing.) -/
theorem claim6_counterexample :
    parseSigItems
      [.pos (.nativeString (some "a") false false),
       .group [.pos (.nativeString (some "b") false false),
               .pos (.nativeString (some "c") false false)]] =
      some [.nativeString (some "a") false false,
            .nativeString (some "b") true false,
            .nativeString (some "c") false false] ∧
    (Positional.nativeString (some "b") true false).optional = true ∧
    (Positional.nativeString (some "c") false false).optional = false := by
  refine ⟨?_, rfl, rfl⟩
  simp [parseSigItems, Positional.setOptional]

/-- C6 (amended).  For chain signatures in canonical singly-nested form
(each nested group is a single specification followed by at most one
further group, and no `optional` flag is pre-set), optionality of the
constructed chain is a suffix property: if the i-th specification is
optional after construction, so is every later one. -/
theorem claim6_amended (items : List SigItem) (ps : List Positional)
    (hc : Canonical items) (hp : parseSigItems items = some ps)
    (i j : Nat) (hi : i < ps.length) (hj : j < ps.length) (hij : i ≤ j)
    (hopt : ps[i].optional = true) : ps[j].optional = true := by
  obtain ⟨pre, suf, hps, hpre, hsuf⟩ := canonical_items_decomp items hc
  rw [hp] at hps
  injection hps with hps
  subst hps
  by_cases hjp : j < pre.length
  · exfalso
    have hip : i < pre.length := lt_of_le_of_lt hij hjp
    rw [List.getElem_append_left hip] at hopt
    have := hpre _ (List.getElem_mem hip)
    rw [this] at hopt
    exact Bool.false_ne_true hopt
  · have hjge : pre.length ≤ j := Nat.le_of_not_lt hjp
    have hj2 : j - pre.length < suf.length := by
      have := hj
      simp only [List.length_append] at this
      omega
    rw [List.getElem_append_right hjge]
    exact hsuf _ (List.getElem_mem hj2)

/-- C6 witness: the amended statement at the canonical signature
`[a, [b, [c]]]`, whose constructed chain is `[a, b?, c?]`; from the
second specification being optional it follows that the third is. -/
theorem claim6_witness :
    parseSigItems sigCanonical = some psCanonical ∧
    (psCanonical.get ⟨2, by decide⟩).optional = true := by
  have hp : parseSigItems sigCanonical = some psCanonical := by
    simp [sigCanonical, psCanonical, parseSigItems, Positional.setOptional]
  have hc : Canonical sigCanonical :=
    Canonical.cons _ _ rfl
      (Canonical.group _ _ rfl (CanonicalTail.group _ _ rfl CanonicalTail.nil))
  exact ⟨hp,
    claim6_amended sigCanonical psCanonical hc hp 1 2 (by decide) (by decide)
      (by decide) rfl⟩

/-- C7.  Counterexample to "add_positional of any further Positional
Specification raises PositionalConflict": on a command whose sole
positional is variadic, adding a metavar-less specification raises
`ValueError` (the metavar check precedes the conflict check), not
`PositionalConflict`. -/
theorem claim7_counterexample :
    cmdRem.add_positional (.nativeString none false false) =
      .error (.valueError "metavar not set") ∧
    Err.valueError "metavar not set" ≠ Err.positionalConflict :=
  ⟨rfl, by decide⟩

/-- C7 (amended).  A command whose sole positional is variadic resolves
the input `a b c` to the full ordered list; and on every command whose
last positional is variadic, `add_positional` of any further positional
that carries a metavar raises `PositionalConflict` (the command is left
unchanged: the rejection happens before any mutation). -/
theorem claim7_amended :
    cmdRem.run 10 ["a", "b", "c"] =
      .ok ⟨some ([.vstr "a", .vstr "b", .vstr "c"], []),
           [([.vstr "a", .vstr "b", .vstr "c"], [])]⟩ ∧
    (∀ (c : Cmd) (p lastP : Positional),
      c.positionals.getLast? = some lastP → lastP.remaining = true →
      p.metavar ≠ none →
      c.add_positional p = .error .positionalConflict) := by
  refine ⟨rfl, ?_⟩
  intro c p lastP hlast hrem hmv
  simp [Cmd.add_positional, hmv, hlast, hrem]

/-- C7 witness: adding a metavar-carrying positional after the variadic
one is rejected with `PositionalConflict`. -/
theorem claim7_witness :
    cmdRem.add_positional (.nativeString (some "y") false false) =
      .error .positionalConflict :=
  claim7_amended.2 cmdRem (.nativeString (some "y") false false) remPos rfl
    rfl (by decide)

/-- A dispatch step on an exhausted cursor does not depend on which
exhausted cursor it is given (the after-loop handling reads only the
command, the expected positionals and the accumulated results). -/
theorem runCore_empty_cursor (fuel : Nat) (c : Cmd) (e : List Positional)
    (ar : List Value) (kw : Namespace) (a b : Arguments)
    (ha : a.toYield = []) (hb : b.toYield = []) :
    Cmd.runCore (fuel + 1) c .outer e ar kw a =
      Cmd.runCore (fuel + 1) c .outer e ar kw b := by
  have hna : a.next = none := by
    rcases a with ⟨args, rem, d, f⟩
    simp only [Arguments.toYield] at ha
    obtain ⟨h1, h2⟩ := List.append_eq_nil.mp ha
    subst h1; subst h2
    rfl
  have hnb : b.next = none := by
    rcases b with ⟨args, rem, d, f⟩
    simp only [Arguments.toYield] at hb
    obtain ⟨h1, h2⟩ := List.append_eq_nil.mp hb
    subst h1; subst h2
    rfl
  simp only [Cmd.runCore, hna, hnb]

/-- C8.  Counterexample to "delegation returns the child's result": the
parent of a child command (the child's overridden main returning its
arguments) run on the one-token input naming the child returns `None`
(the bare `return` after `match.run(...)` discards the child's value),
while the child's own empty-input run returns its main's value; the
child's main was nonetheless invoked, as the call record shows. -/
theorem claim8_counterexample :
    parentEx.run 10 ["sub"] = .ok ⟨none, [([], [])]⟩ ∧
    childEx.run 10 [] = .ok ⟨some ([], []), [([], [])]⟩ ∧
    (none : Option (List Value × Namespace)) ≠ some ([], []) :=
  ⟨rfl, rfl, by simp⟩

/-- C8 (amended).  For every command with exactly one (non-empty-named)
child and nothing else registered: running it on the empty input fails
with `CommandMissing`; running it on the one-token input naming the
child delegates — the parent's dispatch terminates at the delegation and
never resumes, the child's dispatch runs on the same, now exhausted,
cursor (equal to its own empty-input run, whose `main` invocations the
parent's result records) — and the parent's own return value is `None`,
discarding the child's result. -/
theorem claim8_amended (name : String) (child : Cmd) (fuel : Nat)
    (hname : name ≠ "") :
    Cmd.run (parentOf name child) (fuel + 3) [name] =
      (Cmd.run child (fuel + 1) []).map
        (fun r => ⟨none, r.calls⟩) ∧
    Cmd.run (parentOf name child) (fuel + 1) [] = .error .commandMissing := by
  constructor
  · have hmatch : (parentOf name child).get_match name =
        .ok ⟨name, .cmd child, ""⟩ := by
      simp [Cmd.get_match, Cmd.lookupCommand, parentOf, Cmd.new, List.find?]
    show Cmd.runCore (fuel + 3) (parentOf name child) .outer [] [] []
        (Arguments.fresh [name]) = _
    simp only [Cmd.run, Cmd.runCore, Arguments.fresh, Arguments.next,
      Arguments.pushFrame, hmatch, List.nil_append]
    rw [if_neg (fun h => hname h.symm)]
  · rfl

/-- C8 witness: the amended statement at the parent of `childEx` under
the name `sub`. -/
theorem claim8_witness :
    Cmd.run (parentOf "sub" childEx) (0 + 3) ["sub"] =
      (Cmd.run childEx (0 + 1) []).map (fun r => ⟨none, r.calls⟩) ∧
    Cmd.run (parentOf "sub" childEx) (0 + 1) [] = .error .commandMissing :=
  claim8_amended "sub" childEx 0 (by decide)

/-- `get_next_argument` either yields a token or raises
`ArgumentMissing`. -/
theorem getNextArgument_cases (c : Cmd) (mv : Option String)
    (a : Arguments) :
    (∃ t a1, getNextArgument c mv a = (.ok t, a1)) ∨
    (∃ s a1, getNextArgument c mv a = (.error (.argumentMissing s), a1)) := by
  unfold getNextArgument
  rcases hn : a.next with _ | ⟨t, a1⟩
  · exact Or.inr ⟨mv.getD "", a, by simp [hn]⟩
  · by_cases ho : c.is_option t
    · exact Or.inr ⟨t, a1, by simp [hn, ho]⟩
    · exact Or.inl ⟨t, a1, by simp [hn, ho]⟩

/-- Converting a drained token list to integers either succeeds or
raises `UserTypeError`. -/
theorem intConvertAll_cases (ts : List String) :
    (∃ vs, intConvertAll ts = .ok vs) ∨
    (∃ s, intConvertAll ts = .error (.userTypeError s)) := by
  induction ts with
  | nil => exact Or.inl ⟨[], rfl⟩
  | cons t ts ih =>
    cases hpi : pyInt? t with
    | none =>
      exact Or.inr ⟨t ++ " is not an integer", by simp [intConvertAll, hpi]⟩
    | some n =>
      rcases ih with ⟨vs, hvs⟩ | ⟨s, hs⟩
      · exact Or.inl
          ⟨.vint n :: vs, by simp [intConvertAll, hpi, hvs, Except.map]⟩
      · exact Or.inr ⟨s, by simp [intConvertAll, hpi, hs, Except.map]⟩

/-- A positional that can never signal `EndOptionParsing` and carries no
`remaining` `Choice` either parses to a value or raises a `CLIError`. -/
theorem parse_ok_or_cli (p : Positional) : ∀ (c : Cmd) (a : Arguments),
    p.neverEndOption = true → p.noFuelRisk = true →
    (∃ v a1, p.parse c a = (.ok v, a1)) ∨
    (∃ e a1, p.parse c a = (.error e, a1) ∧ e.isCLIError = true) := by
  induction p with
  | nativeString mv opt rem =>
    intro c a hne _
    simp only [Positional.neverEndOption, Bool.not_eq_true'] at hne
    cases rem with
    | true =>
      exact Or.inl ⟨.vlist (a.drain.1.map .vstr), a.drain.2,
        by simp [Positional.parse]⟩
    | false =>
      rcases getNextArgument_cases c mv a with ⟨t, a1, hg⟩ | ⟨s, a1, hg⟩
      · exact Or.inl ⟨.vstr t, a1, by simp [Positional.parse, hg]⟩
      · exact Or.inr ⟨.argumentMissing s, a1,
          by simp [Positional.parse, hg, hne], rfl⟩
  | integer mv opt rem =>
    intro c a hne _
    simp only [Positional.neverEndOption, Bool.not_eq_true'] at hne
    cases rem with
    | true =>
      rcases intConvertAll_cases (a.drain).1 with ⟨vs, hvs⟩ | ⟨s, hs⟩
      · exact Or.inl ⟨.vlist vs, a.drain.2,
          by simp [Positional.parse, hvs]⟩
      · exact Or.inr ⟨.userTypeError s, a.drain.2,
          by simp [Positional.parse, hs], rfl⟩
    | false =>
      rcases getNextArgument_cases c mv a with ⟨t, a1, hg⟩ | ⟨s, a1, hg⟩
      · cases hpi : pyInt? t with
        | some n =>
          exact Or.inl ⟨.vint n, a1, by simp [Positional.parse, hg, hpi]⟩
        | none =>
          exact Or.inr ⟨.userTypeError (t ++ " is not an integer"), a1,
            by simp [Positional.parse, hg, hpi], rfl⟩
      · exact Or.inr ⟨.argumentMissing s, a1,
          by simp [Positional.parse, hg, hne], rfl⟩
  | boolean store mv opt rem =>
    intro c a _ _
    exact Or.inl ⟨.vbool store, a, by simp [Positional.parse]⟩
  | choice inner choices mv opt rem ih =>
    intro c a hne hnf
    simp only [Positional.neverEndOption, Bool.and_eq_true,
      Bool.not_eq_true'] at hne
    simp only [Positional.noFuelRisk, Bool.and_eq_true,
      Bool.not_eq_true'] at hnf
    rcases ih c a hne.2 hnf.2 with ⟨v, a1, hv⟩ | ⟨e, a1, he, hcli⟩
    · by_cases hin : v ∈ choices
      · exact Or.inl ⟨v, a1, by simp [Positional.parse, hnf.1, hv, hin]⟩
      · exact Or.inr ⟨.userTypeError "not one of the choices", a1,
          by simp [Positional.parse, hnf.1, hv, hin], rfl⟩
    · cases e with
      | unexpectedArgument s =>
        exact Or.inr ⟨.unexpectedArgument s, a1,
          by simp [Positional.parse, hnf.1, he], rfl⟩
      | argumentMissing s =>
        exact Or.inr ⟨.argumentMissing s, a1,
          by simp [Positional.parse, hnf.1, he, hne.1], rfl⟩
      | userTypeError s =>
        exact Or.inr ⟨.userTypeError s, a1,
          by simp [Positional.parse, hnf.1, he], rfl⟩
      | commandMissing =>
        exact Or.inr ⟨.commandMissing, a1,
          by simp [Positional.parse, hnf.1, he], rfl⟩
      | positionalArgumentMissing s =>
        exact Or.inr ⟨.positionalArgumentMissing s, a1,
          by simp [Positional.parse, hnf.1, he], rfl⟩
      | positionalConflict => simp [Err.isCLIError] at hcli
      | endOptionParsing => simp [Err.isCLIError] at hcli
      | valueError s => simp [Err.isCLIError] at hcli
      | indexError => simp [Err.isCLIError] at hcli
      | attributeError => simp [Err.isCLIError] at hcli
      | notImplementedError => simp [Err.isCLIError] at hcli
      | helpExit => simp [Err.isCLIError] at hcli
      | outOfFuel => simp [Err.isCLIError] at hcli

/-- A single-element chain propagates its head's non-`EndOptionParsing`
error. -/
theorem parseChain_single_err (p : Positional) (c : Cmd) (a : Arguments)
    (e : Err) (a1 : Arguments) (hp : p.parse c a = (.error e, a1))
    (hne : e ≠ .endOptionParsing) :
    parseChain c [p] a = (.error e, a1) := by
  cases e <;> simp_all [parseChain]

/-- C10.  Counterexample: `Option` construction accepts the
single-element chain whose head is a non-optional `Choice` wrapping an
optional positional (the first positional of the chain is not optional,
so `_parse_signature` does not reject it), yet on empty input the inner
positional's `EndOptionParsing` escapes through `Choice.parse`,
`Option.parse` breaks with an empty result list, and `result[0]` fails
with `IndexError` — which is not a `CLIError`. -/
theorem claim10_counterexample :
    optionChainCheck [.pos choiceBad] = .ok [choiceBad] ∧
    (Opt.parse optBad cmdPlain [] "z" (Arguments.fresh [])).1 =
      .error .indexError ∧
    Err.isCLIError .indexError = false := by
  refine ⟨?_, rfl, rfl⟩
  simp [optionChainCheck, parseSigItems, choiceBad, Positional.optional]

/-- C10 (amended).  For every single-element chain whose head can never
signal `EndOptionParsing` — its own `optional` flag is off and, through
any `Choice` nesting, so are the wrapped positionals' flags — and
carries no `remaining` `Choice`, `Option.parse` with the default action
never hits the empty-result `result[0]` (no `IndexError`): it either
returns an updated namespace or propagates a `CLIError`. -/
theorem claim10_amended (p : Positional) (c : Cmd) (ns : Namespace)
    (name : String) (a : Arguments)
    (hne : p.neverEndOption = true) (hnf : p.noFuelRisk = true) :
    (∃ ns1 a1, Opt.parse (mkSingleOpt p) c ns name a = (.ok ns1, a1)) ∨
    (∃ e a1, Opt.parse (mkSingleOpt p) c ns name a = (.error e, a1) ∧
      e.isCLIError = true) := by
  rcases parse_ok_or_cli p c a hne hnf with ⟨v, a1, hv⟩ | ⟨e, a1, he, hcli⟩
  · left
    refine ⟨nsSet ns name v, a1, ?_⟩
    simp [Opt.parse, mkSingleOpt, parseChain, hv, ActionKind.apply]
  · right
    refine ⟨e, a1, ?_, hcli⟩
    have hnend : e ≠ .endOptionParsing := by
      intro hcontra
      rw [hcontra] at hcli
      simp [Err.isCLIError] at hcli
    have hchain := parseChain_single_err p c a e a1 he hnend
    simp [Opt.parse, mkSingleOpt, hchain]

/-- C10 witness: the amended statement at a mandatory native-string
head on a one-token cursor. -/
theorem claim10_witness :
    (∃ ns1 a1,
      Opt.parse (mkSingleOpt (.nativeString (some "w") false false))
        cmdPlain [] "z" (Arguments.fresh ["tok"]) = (.ok ns1, a1)) ∨
    (∃ e a1,
      Opt.parse (mkSingleOpt (.nativeString (some "w") false false))
        cmdPlain [] "z" (Arguments.fresh ["tok"]) = (.error e, a1) ∧
      e.isCLIError = true) :=
  claim10_amended (.nativeString (some "w") false false) cmdPlain [] "z"
    (Arguments.fresh ["tok"]) rfl rfl
